import Mathlib

/-!
Verification of the snippet-processing engine of `code_snippet_to_doc`
(file `src/code_snippet_to_doc/snippet_processor.py`, plus the legacy
`src/code_snippet_to_md/snippet_processor.py`).

Shallow embedding conventions:
* A Python `str` is modelled as `List Char`; a document or source file is the
  list of its lines exactly as produced by `readlines()` (each line keeps its
  trailing newline character, the final line possibly lacking one).
* The Python `re` and `fnmatch` library calls made by `_parse_line_spec` are
  external collaborators; they are abstracted as parameters: `Recompile`
  models `re.compile` (`none` = compilation error, otherwise the compiled
  `search` predicate on a line) and `GlobMatch` models `fnmatch.fnmatch`.
  The two fixed directive regexes of the format classes are translated
  concretely below, because the scanner's behaviour depends on them.
* The filesystem (`open(...).readlines()`) is a finite association list from
  resolved path to file lines; a missing entry models an I/O failure.
  `os.path` resolution against the document directory is absorbed into the
  keys of that association list (the document directory is fixed for a run).
* Python exceptions that abort document processing are modelled with
  `Except`.
-/

namespace SnippetProc

abbrev Line := List Char

/-- Python whitespace for `str.strip` / regex `\s` (ASCII range). -/
def pyIsSpace (c : Char) : Bool :=
  c = ' ' || c = '\t' || c = '\n' || c = '\r' || c = '\x0b' || c = '\x0c'

/-- Right strip: `s.rstrip()` restricted to whitespace. -/
def rstripWs (s : Line) : Line :=
  (s.reverse.dropWhile pyIsSpace).reverse

/-- Python `str.strip()` (whitespace on both ends). -/
def pstrip (s : Line) : Line :=
  rstripWs (s.dropWhile pyIsSpace)

/-- `pattern.replace("\\:", ":")` — unescape escaped colons, scanning left to
right over non-overlapping occurrences, as `str.replace` does. -/
def unescapeColons : Line → Line
  | '\\' :: ':' :: rest => ':' :: unescapeColons rest
  | c :: rest => c :: unescapeColons rest
  | [] => []

/-- Digit run accepted by Python `int()`: digits with single underscores
strictly between digits.  Accumulates the value. -/
def pyDigitsGo (acc : Nat) : Line → Option Nat
  | [] => some acc
  | '_' :: c :: cs =>
      if c.isDigit then pyDigitsGo (acc * 10 + (c.toNat - 48)) cs else none
  | ['_'] => none
  | c :: cs =>
      if c.isDigit then pyDigitsGo (acc * 10 + (c.toNat - 48)) cs else none

def pyDigits : Line → Option Nat
  | [] => none
  | c :: cs => if c.isDigit then pyDigitsGo (c.toNat - 48) cs else none

/-- Python `int(spec)`: optional surrounding whitespace, optional sign,
decimal digits with optional single interior underscores. -/
def pyInt (s : Line) : Option Int :=
  match pstrip s with
  | [] => none
  | c :: rest =>
      if c = '+' then (pyDigits rest).map (fun v => (v : Int))
      else if c = '-' then (pyDigits rest).map (fun v => -(v : Int))
      else (pyDigits (c :: rest)).map (fun v => (v : Int))

/-- Python slice index normalisation for `l[a:b]` (step 1). -/
def pyIdx (n : Nat) (x : Int) : Nat :=
  (if x < 0 then x + n else x).toNat.min n

/-- Python `l[a:b]`. -/
def pySlice {α : Type} (l : List α) (a b : Int) : List α :=
  (l.take (pyIdx l.length b)).drop (pyIdx l.length a)

/-- The scan loop of `_parse_line_spec`:
`for i, line in enumerate(lines): if i < start_after: continue;
 if match(line): return i + 1`. -/
def findFromAux (m : Line → Bool) (startAfter : Int) : Int → List Line → Option Int
  | _, [] => none
  | i, l :: ls =>
      if i < startAfter then findFromAux m startAfter (i + 1) ls
      else if m l then some (i + 1)
      else findFromAux m startAfter (i + 1) ls

def findFrom (m : Line → Bool) (lines : List Line) (startAfter : Int) : Option Int :=
  findFromAux m startAfter 0 lines

/-- Abstraction of `re.compile(pattern)` followed by `.search(line)`:
`none` models `re.error` on compilation. -/
abbrev Recompile := Line → Option (Line → Bool)

/-- Abstraction of `fnmatch.fnmatch(line, pattern)`. -/
abbrev GlobMatch := Line → Line → Bool

/-- `spec.startswith("r/") and spec.endswith("/")`. -/
def isRegexForm (s : Line) : Bool :=
  "r/".toList.isPrefixOf s && "/".toList.isSuffixOf s

/-- `spec.startswith("/") and spec.endswith("/")`. -/
def isGlobForm (s : Line) : Bool :=
  "/".toList.isPrefixOf s && "/".toList.isSuffixOf s

/-- `spec[2:-1]` with colons unescaped (regex branch). -/
def regexPattern (spec : Line) : Line := unescapeColons ((spec.drop 2).dropLast)

/-- `spec[1:-1]` with colons unescaped (glob branch). -/
def globPattern (spec : Line) : Line := unescapeColons ((spec.drop 1).dropLast)

/-- `f"*{pattern}*"` wrapping applied before `fnmatch.fnmatch`. -/
def globWrapped (spec : Line) : Line := '*' :: (globPattern spec ++ ['*'])

/-- Association-list lookup (first matching key wins), used for the fixed
extension table and for the modelled filesystem. -/
def alistLookup {β : Type} : List (Line × β) → Line → Option β
  | [], _ => none
  | (k, v) :: rest, p => if k = p then some v else alistLookup rest p

/-- `os.path.basename` (POSIX): everything after the last `/`. -/
def basename (p : Line) : Line :=
  (p.reverse.takeWhile (fun c => ¬ (c = '/'))).reverse

/-- The extension component of `os.path.splitext(p)`: the suffix of the
basename starting at its last dot, provided some earlier character of the
basename is not a dot (a purely-leading run of dots yields no extension). -/
def splitextExt (p : Line) : Line :=
  let b := basename p
  let revSuf := b.reverse.takeWhile (fun c => ¬ (c = '.'))
  match b.reverse.drop revSuf.length with
  | [] => []
  | _ :: revPre =>
      if revPre.any (fun c => ¬ (c = '.')) then '.' :: revSuf.reverse else []

/-- The `ext_map` dictionary of `_detect_language`. -/
def extMap : List (Line × Line) :=
  [(".py".toList, "python".toList),
   (".c".toList, "c".toList),
   (".h".toList, "c".toList),
   (".cpp".toList, "cpp".toList),
   (".cxx".toList, "cpp".toList),
   (".cc".toList, "cpp".toList),
   (".hpp".toList, "hpp".toList),
   (".java".toList, "java".toList),
   (".js".toList, "javascript".toList),
   (".ts".toList, "typescript".toList),
   (".rs".toList, "rust".toList),
   (".go".toList, "go".toList),
   (".rb".toList, "ruby".toList),
   (".sh".toList, "bash".toList),
   (".bash".toList, "bash".toList),
   (".zsh".toList, "zsh".toList),
   (".yml".toList, "yaml".toList),
   (".yaml".toList, "yaml".toList),
   (".json".toList, "json".toList),
   (".toml".toList, "toml".toList),
   (".xml".toList, "xml".toList),
   (".html".toList, "html".toList),
   (".css".toList, "css".toList),
   (".sql".toList, "sql".toList),
   (".md".toList, "markdown".toList),
   (".cmake".toList, "cmake".toList),
   (".mk".toList, "makefile".toList)]

/-- The branch structure of `_detect_language` over the computed basename
and extension: the well-known-basename tables first, then the extension
table, else the empty tag. -/
def detectCore (b ext : Line) : Line :=
  if b = "Makefile".toList ∨ b = "makefile".toList ∨ b = "GNUmakefile".toList then
    "makefile".toList
  else if b = "CMakeLists.txt".toList then "cmake".toList
  else if b = "Dockerfile".toList then "dockerfile".toList
  else if b = "Kconfig".toList ∨ "Kconfig.".toList.isPrefixOf b then "kconfig".toList
  else (alistLookup extMap ext).getD []

/-- `_detect_language(file_path)` (same source text in both packages). -/
def detectLanguage (p : Line) : Line :=
  detectCore (basename p) (splitextExt p)

/-- `_resolve_path`: unescape `\:`; the `os.path` join against the document
directory is absorbed into the filesystem keys (see module docstring). -/
def resolvePath (snippetPath : Line) : Line := unescapeColons snippetPath

inductive SpecErr where
  | invalidSpecification
  | invalidPattern
  | notFound
deriving DecidableEq, Repr

/-- `_parse_line_spec(spec, lines, start_after)` (same source text in both
packages).  Errors map the three `ValueError` messages of the source. -/
def parseLineSpec (rc : Recompile) (gl : GlobMatch) (spec : Line)
    (lines : List Line) (startAfter : Int) : Except SpecErr Int :=
  match pyInt spec with
  | some n => .ok n
  | none =>
      if isRegexForm spec then
        match rc (regexPattern spec) with
        | none => .error .invalidPattern
        | some m =>
            match findFrom m lines startAfter with
            | some n => .ok n
            | none => .error .notFound
      else if isGlobForm spec then
        match findFrom (fun l => gl l (globWrapped spec)) lines startAfter with
        | some n => .ok n
        | none => .error .notFound
      else .error .invalidSpecification

/-!
Directive-line recognition.  The two formats share the field regex
`(?P<path>(?:[^:\\]|\\.)+?):(?P<start>(?:[^:\\]|\\.)+?):(?P<end>(?:[^:\\]|\\.)+?)`.
Each field element is either one non-colon non-backslash character or a
backslash followed by any non-newline character; the alternation is
deterministic (disjoint first characters) and a field can never consume an
unescaped colon, so the lazy `+?` repetitions yield a deterministic scan:
`path` and `start` end at the first reachable unescaped colon, and `end` is
the shortest non-empty token sequence after which the trailing context
(`\s*-->` for Markdown's `re.match`, `\s*$` for RST) matches.
-/

/-- Strip a literal prefix, as a regex literal does. -/
def dropLit (lit : String) (s : Line) : Option Line :=
  if lit.toList.isPrefixOf s then some (s.drop lit.toList.length) else none

/-- One lazy field up to an unescaped colon (used for the path and start
fields, whose trailing context is a literal `:`).  Returns the captured text
and the rest after the separating colon; `none` when the regex cannot
match. -/
def scanFieldColon : Line → Line → Option (Line × Line)
  | acc, ':' :: rest => if acc.isEmpty then none else some (acc.reverse, rest)
  | _, [] => none
  | _, ['\\'] => none
  | acc, '\\' :: d :: rest =>
      if d = '\n' then none else scanFieldColon (d :: '\\' :: acc) rest
  | acc, c :: rest => scanFieldColon (c :: acc) rest

/-- The lazy end field: after each consumed element, stop as soon as the
boundary predicate accepts the remainder. -/
def scanFieldEnd (bdry : Line → Bool) : Line → Line → Option (Line × Line)
  | _, [] => none
  | _, ':' :: _ => none
  | _, ['\\'] => none
  | acc, '\\' :: d :: rest =>
      if d = '\n' then none
      else if bdry rest then some ((d :: '\\' :: acc).reverse, rest)
      else scanFieldEnd bdry (d :: '\\' :: acc) rest
  | acc, c :: rest =>
      if bdry rest then some ((c :: acc).reverse, rest)
      else scanFieldEnd bdry (c :: acc) rest

/-- Boundary `\s*-->` of the Markdown start regex (under `re.match`, trailing
characters after `-->` are permitted). -/
def mdBoundary (s : Line) : Bool :=
  "-->".toList.isPrefixOf (s.dropWhile pyIsSpace)

/-- Boundary `\s*$` of the RST start regex. -/
def rstBoundary (s : Line) : Bool :=
  (s.dropWhile pyIsSpace).isEmpty

/-- Shared three-field parse after the `code_snippet_start:` marker. -/
def scanFields (bdry : Line → Bool) (s : Line) : Option (Line × Line × Line) :=
  match scanFieldColon [] s with
  | none => none
  | some (path, r1) =>
      match scanFieldColon [] r1 with
      | none => none
      | some (start, r2) =>
          match scanFieldEnd bdry [] r2 with
          | none => none
          | some (endf, _) => some (path, start, endf)

/-- `MarkdownFormat.snippet_start_re.match(stripped)`:
`<!--\s*code_snippet_start:` + fields + `\s*-->`. -/
def mdStartMatch (s : Line) : Option (Line × Line × Line) :=
  match dropLit "<!--" s with
  | none => none
  | some r1 =>
      match dropLit "code_snippet_start:" (r1.dropWhile pyIsSpace) with
      | none => none
      | some r2 => scanFields mdBoundary r2

/-- `MarkdownFormat.snippet_end_re.match(stripped)`:
`<!--\s*code_snippet_end\s*-->`. -/
def mdEndMatch (s : Line) : Bool :=
  match dropLit "<!--" s with
  | none => false
  | some r1 =>
      match dropLit "code_snippet_end" (r1.dropWhile pyIsSpace) with
      | none => false
      | some r2 => "-->".toList.isPrefixOf (r2.dropWhile pyIsSpace)

/-- `RstFormat.snippet_start_re.match(stripped)`:
`\.\.\s+code_snippet_start:` + fields + `\s*$`. -/
def rstStartMatch (s : Line) : Option (Line × Line × Line) :=
  match dropLit ".." s with
  | none => none
  | some r1 =>
      match r1 with
      | [] => none
      | c :: r2 =>
          if pyIsSpace c then
            match dropLit "code_snippet_start:" (r2.dropWhile pyIsSpace) with
            | none => none
            | some r3 => scanFields rstBoundary r3
          else none

/-- `RstFormat.snippet_end_re.match(stripped)`: `\.\.\s+code_snippet_end\s*$`. -/
def rstEndMatch (s : Line) : Bool :=
  match dropLit ".." s with
  | none => false
  | some r1 =>
      match r1 with
      | [] => false
      | c :: r2 =>
          if pyIsSpace c then
            match dropLit "code_snippet_end" (r2.dropWhile pyIsSpace) with
            | none => false
            | some r3 => (r3.dropWhile pyIsSpace).isEmpty
          else false

/-- `_FENCED_CODE_RE = ^(`{3,}|~{3,})` applied to the stripped line; the
result is `group(1)[0]`, the fence character. -/
def fenceMatch (s : Line) : Option Char :=
  if s.take 3 = ['`', '`', '`'] then some '`'
  else if s.take 3 = ['~', '~', '~'] then some '~'
  else none

/-- `MarkdownFormat.is_passthrough_line(line, state)`.  The mutable state
dict `{in_fenced_block, fence_marker}` is modelled as `Option Char` (`some m`
= inside a fence opened by marker `m`; the marker is only ever read while
inside a fence). -/
def mdPassthrough (line : Line) (st : Option Char) : Bool × Option Char :=
  let stripped := pstrip line
  match fenceMatch stripped with
  | some c =>
      match st with
      | none => (true, some c)
      | some m =>
          if !stripped.isEmpty && stripped.all (fun x => x = m) then (true, none)
          else (true, some m)
  | none => (st.isSome, st)

/-!  Block rendering.  The renderers return the emitted text as the list of
its lines (splitting the exact character stream written by
`write_code_block` at newline characters, assuming the well-formedness that
`readlines()` guarantees for the extracted lines). -/

/-- The `if lines and not lines[-1].endswith("\n"): out.write("\n")` fixup:
the forced newline merges into the final extracted line. -/
def ensureNL (ls : List Line) : List Line :=
  match ls.getLast? with
  | none => []
  | some last =>
      if last.getLast? = some '\n' then ls else ls.dropLast ++ [last ++ ['\n']]

/-- `MarkdownFormat.write_code_block`: blank line, fence with language tag,
the lines, newline fixup, closing fence, blank line. -/
def mdRender (lang : Line) (ls : List Line) : List Line :=
  ['\n'] :: ("```".toList ++ lang ++ ['\n']) :: (ensureNL ls ++ ["```\n".toList, ['\n']])

/-- `RstFormat.write_code_block`: blank line, `code-block` directive, blank
line, each non-blank line indented by three spaces (blank lines written as a
bare newline), newline fixup, trailing blank line. -/
def rstRender (lang : Line) (ls : List Line) : List Line :=
  let header : List Line :=
    [['\n'], ".. code-block:: ".toList ++ lang ++ ['\n'], ['\n']]
  match ls.getLast? with
  | none => header ++ [['\n']]
  | some last =>
      let mapped := ls.map (fun l =>
        if (pstrip l).isEmpty then ['\n'] else "   ".toList ++ l)
      if last.getLast? = some '\n' then header ++ mapped ++ [['\n']]
      else if (pstrip last).isEmpty then header ++ mapped ++ [['\n'], ['\n']]
      else header ++ mapped.dropLast ++ ["   ".toList ++ last ++ ['\n'], ['\n']]

/-- The `DocFormat` interface: directive patterns (applied to the stripped
line), the passthrough predicate with its per-document state, and the block
renderer. -/
structure DocFormat where
  startMatch : Line → Option (Line × Line × Line)
  endMatch : Line → Bool
  passthrough : Line → Option Char → Bool × Option Char
  render : Line → List Line → List Line

/-- `MarkdownFormat()`. -/
def markdownFormat : DocFormat :=
  { startMatch := mdStartMatch
    endMatch := mdEndMatch
    passthrough := mdPassthrough
    render := mdRender }

/-- `RstFormat()`: the base-class passthrough is a constant `False` that
leaves the state untouched. -/
def rstFormat : DocFormat :=
  { startMatch := rstStartMatch
    endMatch := rstEndMatch
    passthrough := fun _ st => (false, st)
    render := rstRender }

/-- The filesystem visible to one run: resolved path ↦ `readlines()` result. -/
abbrev FS := List (Line × List Line)

inductive ProcErr where
  | specError : SpecErr → ProcErr
  | readError : Line → ProcErr
deriving DecidableEq, Repr

/-- Lines 212–225 of `_process_document`: resolve the start spec (anchor 0),
detect and strip the inclusive `+` marker, resolve the end spec anchored at
the start line, and slice the extracted range. -/
def resolveAndExtract (rc : Recompile) (gl : GlobMatch) (sourceLines : List Line)
    (startSpec endSpec : Line) : Except SpecErr (List Line) :=
  match parseLineSpec rc gl startSpec sourceLines 0 with
  | .error e => .error e
  | .ok startLine =>
      let endInclusive := "/+".toList.isSuffixOf endSpec || "+".toList.isSuffixOf endSpec
      let endSpec2 := if endInclusive then endSpec.dropLast else endSpec
      match parseLineSpec rc gl endSpec2 sourceLines startLine with
      | .error e => .error e
      | .ok endLine =>
          .ok (if endInclusive then pySlice sourceLines (startLine - 1) endLine
               else pySlice sourceLines (startLine - 1) (endLine - 1))

/-- Processing of one matched start directive: resolve the path, read the
source file, extract the range, detect the language and render the block. -/
def handleDirective (fmt : DocFormat) (rc : Recompile) (gl : GlobMatch) (fs : FS)
    (path startSpec endSpec : Line) : Except ProcErr (List Line) :=
  let resolved := resolvePath path
  match alistLookup fs resolved with
  | none => .error (.readError resolved)
  | some sourceLines =>
      match resolveAndExtract rc gl sourceLines startSpec endSpec with
      | .error e => .error (.specError e)
      | .ok snippet => .ok (fmt.render (detectLanguage resolved) snippet)

/-- The scan loop of `_process_document`: state is the `in_snippet_block`
flag plus the passthrough state.  Output is the list of written lines
(rendered blocks are written as their line lists). -/
def processLines (fmt : DocFormat) (rc : Recompile) (gl : GlobMatch) (fs : FS) :
    Bool → Option Char → List Line → Except ProcErr (List Line)
  | _, _, [] => .ok []
  | true, fence, l :: ls =>
      if fmt.endMatch (pstrip l) then
        match processLines fmt rc gl fs false fence ls with
        | .error e => .error e
        | .ok out => .ok (l :: out)
      else processLines fmt rc gl fs true fence ls
  | false, fence, l :: ls =>
      let pt := fmt.passthrough l fence
      if pt.1 then
        match processLines fmt rc gl fs false pt.2 ls with
        | .error e => .error e
        | .ok out => .ok (l :: out)
      else
        match fmt.startMatch (pstrip l) with
        | none =>
            match processLines fmt rc gl fs false pt.2 ls with
            | .error e => .error e
            | .ok out => .ok (l :: out)
        | some (path, startSpec, endSpec) =>
            match handleDirective fmt rc gl fs path startSpec endSpec with
            | .error e => .error e
            | .ok block =>
                match processLines fmt rc gl fs true pt.2 ls with
                | .error e => .error e
                | .ok out => .ok (l :: (block ++ out))

/-- `_process_document(in_doc, out_doc, fmt)`. -/
def processDocument (fmt : DocFormat) (rc : Recompile) (gl : GlobMatch) (fs : FS)
    (doc : List Line) : Except ProcErr (List Line) :=
  processLines fmt rc gl fs false none doc

/-- `code_snippet_to_doc.snippet_processor.process_markdown`. -/
def process_markdown (rc : Recompile) (gl : GlobMatch) (fs : FS)
    (doc : List Line) : Except ProcErr (List Line) :=
  processDocument markdownFormat rc gl fs doc

/-- `code_snippet_to_doc.snippet_processor.process_rst`. -/
def process_rst (rc : Recompile) (gl : GlobMatch) (fs : FS)
    (doc : List Line) : Except ProcErr (List Line) :=
  processDocument rstFormat rc gl fs doc

/-!
Legacy implementation `code_snippet_to_md.snippet_processor.process_markdown`.
Its `_parse_line_spec`, `_detect_language`, `_resolve_path`, directive
regexes, fence regex and block rendering are textually identical to the new
package's, so those embeddings are reused; the scan loop (with its inline
fence tracking and without the inclusive-`+` handling) is translated
separately below.  The legacy `fence_marker` variable persists after a fence
closes (`in_fenced_block` merely becomes false), so the state is a pair.
-/

/-- Legacy directive handling: no `+` detection, always the exclusive slice
`source_lines[start_line - 1 : end_line - 1]`. -/
def legacyHandleDirective (rc : Recompile) (gl : GlobMatch) (fs : FS)
    (path startSpec endSpec : Line) : Except ProcErr (List Line) :=
  let resolved := resolvePath path
  match alistLookup fs resolved with
  | none => .error (.readError resolved)
  | some sourceLines =>
      match parseLineSpec rc gl startSpec sourceLines 0 with
      | .error e => .error (.specError e)
      | .ok startLine =>
          match parseLineSpec rc gl endSpec sourceLines startLine with
          | .error e => .error (.specError e)
          | .ok endLine =>
              .ok (mdRender (detectLanguage resolved)
                    (pySlice sourceLines (startLine - 1) (endLine - 1)))

/-- Legacy `process_markdown` scan loop: `in_snippet_block`,
`in_fenced_block`, `fence_marker` (the marker outliving a closed fence). -/
def legacyProcessLines (rc : Recompile) (gl : GlobMatch) (fs : FS) :
    Bool → Bool → Option Char → List Line → Except ProcErr (List Line)
  | _, _, _, [] => .ok []
  | true, inF, mk, l :: ls =>
      if mdEndMatch (pstrip l) then
        match legacyProcessLines rc gl fs false inF mk ls with
        | .error e => .error e
        | .ok out => .ok (l :: out)
      else legacyProcessLines rc gl fs true inF mk ls
  | false, inF, mk, l :: ls =>
      let stripped := pstrip l
      match fenceMatch stripped with
      | some c =>
          if inF then
            let closes : Bool :=
              match mk with
              | some m => !stripped.isEmpty && stripped.all (fun x => x = m)
              | none => stripped.isEmpty
            if closes then
              match legacyProcessLines rc gl fs false false mk ls with
              | .error e => .error e
              | .ok out => .ok (l :: out)
            else
              match legacyProcessLines rc gl fs false true mk ls with
              | .error e => .error e
              | .ok out => .ok (l :: out)
          else
            match legacyProcessLines rc gl fs false true (some c) ls with
            | .error e => .error e
            | .ok out => .ok (l :: out)
      | none =>
          if inF then
            match legacyProcessLines rc gl fs false true mk ls with
            | .error e => .error e
            | .ok out => .ok (l :: out)
          else
            match mdStartMatch stripped with
            | none =>
                match legacyProcessLines rc gl fs false false mk ls with
                | .error e => .error e
                | .ok out => .ok (l :: out)
            | some (path, startSpec, endSpec) =>
                match legacyHandleDirective rc gl fs path startSpec endSpec with
                | .error e => .error e
                | .ok block =>
                    match legacyProcessLines rc gl fs true false mk ls with
                    | .error e => .error e
                    | .ok out => .ok (l :: (block ++ out))

/-- `code_snippet_to_md.snippet_processor.process_markdown`. -/
def legacy_process_markdown (rc : Recompile) (gl : GlobMatch) (fs : FS)
    (doc : List Line) : Except ProcErr (List Line) :=
  legacyProcessLines rc gl fs false false none doc

/-!  Concrete instantiations of the abstract matchers, used by witnesses. -/

/-- A `re.compile` stand-in that always fails to compile. -/
def rcNone : Recompile := fun _ => none

/-- A compiled regex matching every line (e.g. the empty pattern). -/
def rcAll : Recompile := fun _ => some (fun _ => true)

/-- An `fnmatch` stand-in matching nothing. -/
def glFalse : GlobMatch := fun _ _ => false

/-- An `fnmatch` stand-in matching every line. -/
def glTrue : GlobMatch := fun _ _ => true

/-!  ## Supporting lemmas -/

/-- If the whole document has no start-directive line, the scanner stays in
`Scanning` and copies every line. -/
theorem processLines_noStart (fmt : DocFormat) (rc : Recompile) (gl : GlobMatch)
    (fs : FS) :
    ∀ (doc : List Line) (fence : Option Char),
      (∀ l ∈ doc, fmt.startMatch (pstrip l) = none) →
      processLines fmt rc gl fs false fence doc = .ok doc := by
  intro doc
  induction doc with
  | nil => intro fence _; rfl
  | cons l ls ih =>
      intro fence h
      have hl : fmt.startMatch (pstrip l) = none := h l (by simp)
      have hls : ∀ x ∈ ls, fmt.startMatch (pstrip x) = none :=
        fun x hx => h x (by simp [hx])
      simp only [processLines, hl, ih _ hls]
      split <;> rfl

instance {ε α : Type} [DecidableEq ε] [DecidableEq α] : DecidableEq (Except ε α)
  | .error a, .error b =>
      if h : a = b then .isTrue (by rw [h])
      else .isFalse (by intro hc; injection hc; exact h ‹_›)
  | .error _, .ok _ => .isFalse (by intro hc; injection hc)
  | .ok _, .error _ => .isFalse (by intro hc; injection hc)
  | .ok a, .ok b =>
      if h : a = b then .isTrue (by rw [h])
      else .isFalse (by intro hc; injection hc; exact h ‹_›)

/-- A Boolean glob-form spec starts with a slash. -/
theorem spec_glob_shape {s : Line} (h : isGlobForm s = true) :
    ∃ t, s = '/' :: t := by
  have h1 := ((Bool.and_eq_true _ _).mp h).1
  cases s with
  | nil => simp [List.isPrefixOf] at h1
  | cons d t =>
      simp [List.isPrefixOf] at h1
      exact ⟨t, by rw [← h1]⟩

/-- A Boolean regex-form spec starts with an `r`. -/
theorem spec_regex_shape {s : Line} (h : isRegexForm s = true) :
    ∃ t, s = 'r' :: t := by
  have h1 := ((Bool.and_eq_true _ _).mp h).1
  cases s with
  | nil => simp [List.isPrefixOf] at h1
  | cons d t =>
      simp [List.isPrefixOf] at h1
      exact ⟨t, by rw [← h1.1]⟩

/-- Stripping preserves a non-whitespace head character. -/
theorem pstrip_cons_nonws (c : Char) (l : Line) (h : pyIsSpace c = false) :
    ∃ t, pstrip (c :: l) = c :: t := by
  unfold pstrip rstripWs
  rw [List.dropWhile_cons, h]
  simp only [Bool.false_eq_true, if_false, List.reverse_cons]
  rw [List.dropWhile_append]
  by_cases he : (l.reverse.dropWhile pyIsSpace).isEmpty
  · refine ⟨[], ?_⟩
    rw [if_pos he]
    simp [List.dropWhile_cons, h]
  · refine ⟨(l.reverse.dropWhile pyIsSpace).reverse, ?_⟩
    rw [if_neg he]
    simp

/-- A spec whose first character is neither whitespace, a digit, nor a sign
does not parse as a Python integer. -/
theorem pyInt_eq_none_of_head (c : Char) (l : Line)
    (hws : pyIsSpace c = false) (hd : c.isDigit = false)
    (hp : ¬ c = '+') (hm : ¬ c = '-') :
    pyInt (c :: l) = none := by
  obtain ⟨t, ht⟩ := pstrip_cons_nonws c l hws
  unfold pyInt
  rw [ht]
  simp [hp, hm, pyDigits, hd]

/-- Characterisation of the `_parse_line_spec` scan loop: a returned index is
one past the first matching position at or after the anchor. -/
theorem findFromAux_spec (m : Line → Bool) (a : Int) :
    ∀ (ls : List Line) (i n : Int), findFromAux m a i ls = some n →
      ∃ k : Nat, k < ls.length ∧ n = i + k + 1 ∧ ¬ (i + k < a) ∧
        m (ls.getD k []) = true ∧
        ∀ j : Nat, j < k → ¬ (i + (j : Int) < a) → m (ls.getD j []) = false := by
  intro ls
  induction ls with
  | nil => intro i n h; exact absurd h (by simp [findFromAux])
  | cons l ls ih =>
      intro i n h
      rw [findFromAux] at h
      by_cases hia : i < a
      · rw [if_pos hia] at h
        obtain ⟨k, hk, hn, hka, hm, hmin⟩ := ih (i + 1) n h
        refine ⟨k + 1, by simpa using Nat.succ_lt_succ hk, by push_cast at hn ⊢; omega,
          by push_cast at hka ⊢; omega, by simpa using hm, ?_⟩
        intro j hj hje
        cases j with
        | zero => exact absurd hia (by simpa using hje)
        | succ j' =>
            have := hmin j' (Nat.lt_of_succ_lt_succ hj)
              (by push_cast at hje ⊢; omega)
            simpa using this
      · rw [if_neg hia] at h
        cases hml : m l with
        | true =>
            rw [hml] at h
            simp only [if_true] at h
            have hn : n = i + 1 := by
              have := Option.some.inj h; omega
            refine ⟨0, by simp, by omega, by simpa using hia, by simpa using hml, ?_⟩
            intro j hj
            exact absurd hj (Nat.not_lt_zero j)
        | false =>
            rw [hml] at h
            simp only [Bool.false_eq_true, if_false] at h
            obtain ⟨k, hk, hn, hka, hm, hmin⟩ := ih (i + 1) n h
            refine ⟨k + 1, by simpa using Nat.succ_lt_succ hk, by push_cast at hn ⊢; omega,
              by push_cast at hka ⊢; omega, by simpa using hm, ?_⟩
            intro j hj hje
            cases j with
            | zero => simpa using hml
            | succ j' =>
                have := hmin j' (Nat.lt_of_succ_lt_succ hj)
                  (by push_cast at hje ⊢; omega)
                simpa using this

/-!  ## Claims -/

/-- C4: a document in which no line matches the active format's
start-directive pattern is returned unchanged (the scanner writes every line
and never enters the snippet state, whether lines sit inside passthrough
regions or not). -/
theorem claim_C4 (fmt : DocFormat) (rc : Recompile) (gl : GlobMatch) (fs : FS)
    (doc : List Line)
    (h : ∀ l ∈ doc, fmt.startMatch (pstrip l) = none) :
    processDocument fmt rc gl fs doc = .ok doc :=
  processLines_noStart fmt rc gl fs doc none h

theorem claim_C4_witness :
    processDocument markdownFormat rcNone glFalse []
      ["# Title\n".toList, "Some regular text.\n".toList] =
      .ok ["# Title\n".toList, "Some regular text.\n".toList] :=
  claim_C4 markdownFormat rcNone glFalse [] _ (by decide)

/-- C3: with source lines `[A,B,C,D,E]`, a start spec resolving to 2 and an
end spec resolving to 4, the directive extracts `[B,C]` without the `+`
suffix (exclusive) and `[B,C,D]` with it (inclusive). -/
theorem claim_C3 (rc : Recompile) (gl : GlobMatch) (A B C D E : Line) :
    resolveAndExtract rc gl [A, B, C, D, E] ['2'] ['4'] = .ok [B, C] ∧
    resolveAndExtract rc gl [A, B, C, D, E] ['2'] ['4', '+'] = .ok [B, C, D] :=
  ⟨rfl, rfl⟩

/-- C8: an integer spec is returned by the resolver as-is, with no bounds
check against the file (the result does not depend on `lines` at all); a
start line past the end of the file slices to the empty list, and an end
line past the end of the file truncates at the last line, with no error in
either case. -/
theorem claim_C8 (rc : Recompile) (gl : GlobMatch) :
    (∀ (spec : Line) (lines : List Line) (a n : Int),
        pyInt spec = some n → parseLineSpec rc gl spec lines a = .ok n) ∧
    (∀ (src : List Line) (startLine endLine : Int),
        (src.length : Int) < startLine →
        pySlice src (startLine - 1) endLine = [] ∧
        pySlice src (startLine - 1) (endLine - 1) = []) ∧
    (∀ (src : List Line) (startLine endLine : Int),
        (src.length : Int) ≤ endLine →
        pySlice src (startLine - 1) endLine =
          src.drop (pyIdx src.length (startLine - 1))) := by
  refine ⟨?_, ?_, ?_⟩
  · intro spec lines a n h
    unfold parseLineSpec
    rw [h]
  · intro src startLine endLine h
    have hidx : pyIdx src.length (startLine - 1) = src.length := by
      unfold pyIdx
      rw [if_neg (by omega)]
      have h1 : src.length ≤ (startLine - 1).toNat := by omega
      exact Nat.min_eq_right h1
    constructor <;>
      · unfold pySlice
        rw [hidx]
        exact List.drop_eq_nil_of_le (by simpa using Nat.min_le_right _ src.length)
  · intro src startLine endLine h
    have hidx : pyIdx src.length endLine = src.length := by
      unfold pyIdx
      rw [if_neg (by omega)]
      have h1 : src.length ≤ endLine.toNat := by omega
      exact Nat.min_eq_right h1
    unfold pySlice
    rw [hidx, List.take_length]

theorem claim_C8_witness :
    parseLineSpec rcNone glFalse ['7'] ["a\n".toList] 0 = .ok 7 ∧
    pySlice ["a\n".toList, "b\n".toList] (9 - 1) 12 = [] ∧
    pySlice ["a\n".toList, "b\n".toList] (9 - 1) (12 - 1) = [] ∧
    pySlice ["a\n".toList, "b\n".toList] (1 - 1) 5 =
      (["a\n".toList, "b\n".toList]).drop (pyIdx 2 (1 - 1)) := by
  refine ⟨(claim_C8 rcNone glFalse).1 ['7'] _ 0 7 (by decide), ?_, ?_, ?_⟩
  · exact ((claim_C8 rcNone glFalse).2.1 _ 9 12 (by decide)).1
  · exact ((claim_C8 rcNone glFalse).2.1 _ 9 12 (by decide)).2
  · exact (claim_C8 rcNone glFalse).2.2 _ 1 5 (by decide)

/-- C2: a glob or regex end specification resolved with anchor `a` (the
resolved start line) yields the 1-based index of the first matching line
strictly after line `a`, regardless of matches at or before the anchor. -/
theorem claim_C2 (rc : Recompile) (gl : GlobMatch) (spec : Line)
    (lines : List Line) (a n : Int) :
    (isGlobForm spec = true → isRegexForm spec = false →
      parseLineSpec rc gl spec lines a = .ok n →
      a < n ∧ ∃ k : Nat, n = (k : Int) + 1 ∧ k < lines.length ∧
        gl (lines.getD k []) (globWrapped spec) = true ∧
        ∀ j : Nat, a < (j : Int) + 1 → (j : Int) + 1 < n →
          gl (lines.getD j []) (globWrapped spec) = false) ∧
    (isRegexForm spec = true →
      ∀ mf, rc (regexPattern spec) = some mf →
      parseLineSpec rc gl spec lines a = .ok n →
      a < n ∧ ∃ k : Nat, n = (k : Int) + 1 ∧ k < lines.length ∧
        mf (lines.getD k []) = true ∧
        ∀ j : Nat, a < (j : Int) + 1 → (j : Int) + 1 < n →
          mf (lines.getD j []) = false) := by
  constructor
  · intro hg hr hp
    obtain ⟨rest, hrest⟩ := spec_glob_shape hg
    have hpi : pyInt spec = none := by
      rw [hrest]
      exact pyInt_eq_none_of_head '/' rest (by decide) (by decide)
        (by decide) (by decide)
    unfold parseLineSpec at hp
    rw [hpi, hr, hg] at hp
    simp only [Bool.false_eq_true, if_false, if_true] at hp
    cases hff : findFrom (fun l => gl l (globWrapped spec)) lines a with
    | none => rw [hff] at hp; exact absurd hp (by simp)
    | some n' =>
        rw [hff] at hp
        have hn : n' = n := by simpa using hp
        subst hn
        obtain ⟨k, hk, hkn, hka, hm, hmin⟩ := findFromAux_spec _ a lines 0 n' hff
        refine ⟨by omega, k, by omega, hk, hm, ?_⟩
        intro j hj1 hj2
        exact hmin j (by omega) (by omega)
  · intro hr mf hmf hp
    obtain ⟨rest, hrest⟩ := spec_regex_shape hr
    have hpi : pyInt spec = none := by
      rw [hrest]
      exact pyInt_eq_none_of_head 'r' rest (by decide) (by decide)
        (by decide) (by decide)
    unfold parseLineSpec at hp
    rw [hpi, hr, hmf] at hp
    simp only [if_true] at hp
    cases hff : findFrom mf lines a with
    | none => rw [hff] at hp; exact absurd hp (by simp)
    | some n' =>
        rw [hff] at hp
        have hn : n' = n := by simpa using hp
        subst hn
        obtain ⟨k, hk, hkn, hka, hm, hmin⟩ := findFromAux_spec _ a lines 0 n' hff
        refine ⟨by omega, k, by omega, hk, hm, ?_⟩
        intro j hj1 hj2
        exact hmin j (by omega) (by omega)

/-- C6: exact characterisation of resolver failures — `InvalidSpecification`
iff the spec is neither an integer nor of glob nor regex form;
`InvalidPattern` iff a regex-form spec fails to compile; `NotFound` iff a
compiled regex or a glob spec matches no line strictly after the anchor; a
result is produced in every other case.  Any such failure propagating from a
matched directive aborts the whole document with no block emitted. -/
theorem claim_C6 (rc : Recompile) (gl : GlobMatch) (spec : Line)
    (lines : List Line) (a : Int) :
    (parseLineSpec rc gl spec lines a = .error .invalidSpecification ↔
       pyInt spec = none ∧ isRegexForm spec = false ∧ isGlobForm spec = false) ∧
    (parseLineSpec rc gl spec lines a = .error .invalidPattern ↔
       pyInt spec = none ∧ isRegexForm spec = true ∧
       rc (regexPattern spec) = none) ∧
    (parseLineSpec rc gl spec lines a = .error .notFound ↔
       pyInt spec = none ∧
       ((isRegexForm spec = true ∧ ∃ mf, rc (regexPattern spec) = some mf ∧
           findFrom mf lines a = none) ∨
        (isRegexForm spec = false ∧ isGlobForm spec = true ∧
           findFrom (fun l => gl l (globWrapped spec)) lines a = none))) ∧
    ((∃ n, parseLineSpec rc gl spec lines a = .ok n) ↔
       (∃ n, pyInt spec = some n) ∨
       (isRegexForm spec = true ∧ ∃ mf, rc (regexPattern spec) = some mf ∧
          ∃ n, findFrom mf lines a = some n) ∨
       (isRegexForm spec = false ∧ isGlobForm spec = true ∧
          ∃ n, findFrom (fun l => gl l (globWrapped spec)) lines a = some n)) ∧
    (∀ (fmt : DocFormat) (fs : FS) (fence : Option Char) (l : Line)
        (ls : List Line) (p s e : Line) (err : ProcErr),
       (fmt.passthrough l fence).1 = false →
       fmt.startMatch (pstrip l) = some (p, s, e) →
       handleDirective fmt rc gl fs p s e = .error err →
       processLines fmt rc gl fs false fence (l :: ls) = .error err) := by
  have main :
      (parseLineSpec rc gl spec lines a = .error .invalidSpecification ↔
         pyInt spec = none ∧ isRegexForm spec = false ∧ isGlobForm spec = false) ∧
      (parseLineSpec rc gl spec lines a = .error .invalidPattern ↔
         pyInt spec = none ∧ isRegexForm spec = true ∧
         rc (regexPattern spec) = none) ∧
      (parseLineSpec rc gl spec lines a = .error .notFound ↔
         pyInt spec = none ∧
         ((isRegexForm spec = true ∧ ∃ mf, rc (regexPattern spec) = some mf ∧
             findFrom mf lines a = none) ∨
          (isRegexForm spec = false ∧ isGlobForm spec = true ∧
             findFrom (fun l => gl l (globWrapped spec)) lines a = none))) ∧
      ((∃ n, parseLineSpec rc gl spec lines a = .ok n) ↔
         (∃ n, pyInt spec = some n) ∨
         (isRegexForm spec = true ∧ ∃ mf, rc (regexPattern spec) = some mf ∧
            ∃ n, findFrom mf lines a = some n) ∨
         (isRegexForm spec = false ∧ isGlobForm spec = true ∧
            ∃ n, findFrom (fun l => gl l (globWrapped spec)) lines a = some n)) := by
    unfold parseLineSpec
    cases hpi : pyInt spec with
    | some n => simp [hpi]
    | none =>
        cases hrf : isRegexForm spec with
        | true =>
            cases hrc : rc (regexPattern spec) with
            | none => simp [hpi, hrf, hrc]
            | some mf =>
                cases hff : findFrom mf lines a with
                | none => simp [hpi, hrf, hrc, hff]
                | some n => simp [hpi, hrf, hrc, hff]
        | false =>
            cases hgf : isGlobForm spec with
            | true =>
                cases hff : findFrom (fun l => gl l (globWrapped spec)) lines a with
                | none => simp [hpi, hrf, hgf, hff]
                | some n => simp [hpi, hrf, hgf, hff]
            | false => simp [hpi, hrf, hgf]
  refine ⟨main.1, main.2.1, main.2.2.1, main.2.2.2, ?_⟩
  intro fmt fs fence l ls p s e err hpt hsm hhd
  simp only [processLines, hpt, hsm, hhd, Bool.false_eq_true, if_false]

theorem claim_C6_witness :
    parseLineSpec rcAll glTrue "notanumber".toList [] 0 =
      .error .invalidSpecification ∧
    parseLineSpec rcNone glTrue "r/a/".toList ["x\n".toList] 0 =
      .error .invalidPattern ∧
    parseLineSpec rcNone glFalse "/missing/".toList ["a\n".toList] 0 =
      .error .notFound ∧
    processLines markdownFormat rcNone glFalse [] false none
      ["<!-- code_snippet_start:f:1:2 -->\n".toList, "tail\n".toList] =
      .error (.readError "f".toList) := by
  refine ⟨?_, ?_, ?_, ?_⟩
  · exact (claim_C6 rcAll glTrue "notanumber".toList [] 0).1.mpr
      ⟨by decide, by decide, by decide⟩
  · exact (claim_C6 rcNone glTrue "r/a/".toList ["x\n".toList] 0).2.1.mpr
      ⟨by decide, by decide, rfl⟩
  · exact (claim_C6 rcNone glFalse "/missing/".toList ["a\n".toList] 0).2.2.1.mpr
      ⟨by decide, Or.inr ⟨by decide, by decide, rfl⟩⟩
  · exact (claim_C6 rcNone glFalse [] [] 0).2.2.2.2 markdownFormat [] none
      "<!-- code_snippet_start:f:1:2 -->\n".toList ["tail\n".toList]
      "f".toList ['1'] ['2'] (.readError "f".toList) (by decide) (by rfl) (by rfl)

/-- Cons lists with different heads differ. -/
theorem cons_ne_of_head {c d : Char} {t u : Line} (h : ¬ c = d) :
    ¬ (c :: t = d :: u) := by
  intro hc; injection hc; exact h ‹_›

/-- A Boolean cons-headed prefix forces the head of the larger list. -/
theorem isPrefixOf_head {c : Char} {p s : Line}
    (h : (c :: p).isPrefixOf s = true) : ∃ t, s = c :: t := by
  cases s with
  | nil => simp [List.isPrefixOf] at h
  | cons d t =>
      simp [List.isPrefixOf] at h
      exact ⟨t, by rw [← h.1]⟩

/-- C7 counterexample: the extension lookup of `_detect_language` is exact,
not case-insensitive — `.PY` maps to the empty tag while `.py` maps to
`python`, contradicting the claim that they yield the same tag. -/
theorem claim_C7_counterexample :
    detectLanguage "pkg/foo.py".toList = "python".toList ∧
    detectLanguage "pkg/foo.PY".toList = [] ∧
    ¬ detectLanguage "pkg/foo.PY".toList = detectLanguage "pkg/foo.py".toList := by
  refine ⟨by decide, by decide, by decide⟩

/-- C7 (amended): the detector first matches the exact basename against the
fixed well-known-filename table, then performs an exact (case-sensitive)
lookup of the extension in the fixed extension table, and returns the empty
string when neither matches; an upper-case variant of a known extension is
not found and yields the empty tag. -/
theorem claim_C7 :
    (∀ p : Line, basename p = "Makefile".toList ∨ basename p = "makefile".toList ∨
        basename p = "GNUmakefile".toList → detectLanguage p = "makefile".toList) ∧
    (∀ p : Line, basename p = "CMakeLists.txt".toList →
        detectLanguage p = "cmake".toList) ∧
    (∀ p : Line, basename p = "Dockerfile".toList →
        detectLanguage p = "dockerfile".toList) ∧
    (∀ p : Line, basename p = "Kconfig".toList ∨
        "Kconfig.".toList.isPrefixOf (basename p) = true →
        detectLanguage p = "kconfig".toList) ∧
    (∀ p : Line,
        ¬ (basename p = "Makefile".toList ∨ basename p = "makefile".toList ∨
           basename p = "GNUmakefile".toList) →
        ¬ basename p = "CMakeLists.txt".toList →
        ¬ basename p = "Dockerfile".toList →
        ¬ (basename p = "Kconfig".toList ∨
           "Kconfig.".toList.isPrefixOf (basename p) = true) →
        detectLanguage p = (alistLookup extMap (splitextExt p)).getD []) ∧
    detectLanguage "pkg/foo.PY".toList = [] := by
  refine ⟨?_, ?_, ?_, ?_, ?_, by decide⟩
  · intro p h
    unfold detectLanguage detectCore
    rw [if_pos h]
  · intro p h
    rw [detectLanguage, h]
    simp [detectCore]
  · intro p h
    rw [detectLanguage, h]
    simp [detectCore]
  · intro p h
    have hb : ∃ t, basename p = 'K' :: t := by
      cases h with
      | inl h => exact ⟨"config".toList, h⟩
      | inr h => exact isPrefixOf_head h
    obtain ⟨t, hb⟩ := hb
    unfold detectLanguage detectCore
    rw [if_neg, if_neg, if_neg, if_pos h]
    · rw [hb]; exact cons_ne_of_head (by decide)
    · rw [hb]; exact cons_ne_of_head (by decide)
    · rw [hb]
      rintro (hc | hc | hc)
      · exact cons_ne_of_head (by decide) hc
      · exact cons_ne_of_head (by decide) hc
      · exact cons_ne_of_head (by decide) hc
  · intro p h1 h2 h3 h4
    unfold detectLanguage detectCore
    rw [if_neg h1, if_neg h2, if_neg h3, if_neg h4]

theorem claim_C7_witness :
    detectLanguage "src/Makefile".toList = "makefile".toList ∧
    detectLanguage "x/CMakeLists.txt".toList = "cmake".toList ∧
    detectLanguage "Dockerfile".toList = "dockerfile".toList ∧
    detectLanguage "comp/Kconfig.projbuild".toList = "kconfig".toList ∧
    detectLanguage "a/b.xyz".toList =
      (alistLookup extMap (splitextExt "a/b.xyz".toList)).getD [] := by
  refine ⟨?_, ?_, ?_, ?_, ?_⟩
  · exact claim_C7.1 _ (by decide)
  · exact claim_C7.2.1 _ (by decide)
  · exact claim_C7.2.2.1 _ (by decide)
  · exact claim_C7.2.2.2.1 _ (by decide)
  · exact claim_C7.2.2.2.2.1 _ (by decide) (by decide) (by decide) (by decide)

/-- A line whose stripped form matches the Markdown start directive starts
with `<`. -/
theorem mdStartMatch_head {s : Line} (h : ¬ mdStartMatch s = none) :
    ∃ t, s = '<' :: t := by
  unfold mdStartMatch at h
  cases hd : dropLit "<!--" s with
  | none => rw [hd] at h; exact absurd rfl h
  | some r =>
      unfold dropLit at hd
      by_cases hp : "<!--".toList.isPrefixOf s = true
      · exact isPrefixOf_head hp
      · rw [if_neg hp] at hd; exact absurd hd (by simp)

/-- A line whose stripped form matches the Markdown end directive starts
with `<`. -/
theorem mdEndMatch_head {s : Line} (h : mdEndMatch s = true) :
    ∃ t, s = '<' :: t := by
  unfold mdEndMatch at h
  cases hd : dropLit "<!--" s with
  | none => rw [hd] at h; exact absurd h (by simp)
  | some r =>
      unfold dropLit at hd
      by_cases hp : "<!--".toList.isPrefixOf s = true
      · exact isPrefixOf_head hp
      · rw [if_neg hp] at hd; exact absurd hd (by simp)

/-- A line starting with `<` is not a fence line. -/
theorem fenceMatch_lt {t : Line} : fenceMatch ('<' :: t) = none := by
  unfold fenceMatch
  have h1 : ('<' :: t).take 3 = '<' :: t.take 2 := rfl
  rw [h1, if_neg (cons_ne_of_head (by decide)), if_neg (cons_ne_of_head (by decide))]

/-- C5: while the Markdown scanner is inside a literal fence, a line whose
stripped form matches the start- or end-directive pattern is copied to
output verbatim, is not recognised as a directive, produces no block, and
leaves both the snippet state and the fence state unchanged. -/
theorem claim_C5 (rc : Recompile) (gl : GlobMatch) (fs : FS) (c : Char)
    (l : Line) (ls : List Line)
    (h : ¬ mdStartMatch (pstrip l) = none ∨ mdEndMatch (pstrip l) = true) :
    processLines markdownFormat rc gl fs false (some c) (l :: ls) =
      Except.map (fun out => l :: out)
        (processLines markdownFormat rc gl fs false (some c) ls) := by
  have hfm : fenceMatch (pstrip l) = none := by
    obtain ⟨t, ht⟩ : ∃ t, pstrip l = '<' :: t := by
      cases h with
      | inl h => exact mdStartMatch_head h
      | inr h => exact mdEndMatch_head h
    rw [ht]; exact fenceMatch_lt
  have hpt : markdownFormat.passthrough l (some c) = (true, some c) := by
    show mdPassthrough l (some c) = _
    unfold mdPassthrough
    simp only [hfm]
    rfl
  simp only [processLines, hpt]
  cases hrec : processLines markdownFormat rc gl fs false (some c) ls <;>
    simp [Except.map]

theorem claim_C5_witness :
    processLines markdownFormat rcNone glFalse [] false (some '`')
      ["<!-- code_snippet_start:f:1:2 -->\n".toList] =
      Except.map (fun out => "<!-- code_snippet_start:f:1:2 -->\n".toList :: out)
        (processLines markdownFormat rcNone glFalse [] false (some '`') []) :=
  claim_C5 rcNone glFalse [] '`' _ [] (Or.inl (by decide))

/-- Inside the snippet state, lines that do not match the end directive are
dropped without affecting state or output. -/
theorem processLines_skip (fmt : DocFormat) (rc : Recompile) (gl : GlobMatch)
    (fs : FS) :
    ∀ (B rest : List Line) (fence : Option Char),
      (∀ b ∈ B, fmt.endMatch (pstrip b) = false) →
      processLines fmt rc gl fs true fence (B ++ rest) =
        processLines fmt rc gl fs true fence rest := by
  intro B
  induction B with
  | nil => intro rest fence _; rfl
  | cons b B ih =>
      intro rest fence h
      have hb : fmt.endMatch (pstrip b) = false := h b (by simp)
      simp only [List.cons_append, processLines, hb, Bool.false_eq_true, if_false]
      exact ih rest fence (fun x hx => h x (by simp [hx]))

/-- C9: when a start directive is matched and no later line matches the end
directive, processing succeeds with no error, the output contains the
directive line followed by the freshly rendered block, and every remaining
input line is dropped. -/
theorem claim_C9 (fmt : DocFormat) (rc : Recompile) (gl : GlobMatch) (fs : FS)
    (fence : Option Char) (l : Line) (ls : List Line) (p s e : Line)
    (block : List Line)
    (hpt : (fmt.passthrough l fence).1 = false)
    (hsm : fmt.startMatch (pstrip l) = some (p, s, e))
    (hhd : handleDirective fmt rc gl fs p s e = .ok block)
    (hend : ∀ r ∈ ls, fmt.endMatch (pstrip r) = false) :
    processLines fmt rc gl fs false fence (l :: ls) = .ok (l :: block) := by
  have hskip : processLines fmt rc gl fs true (fmt.passthrough l fence).2 ls = .ok [] := by
    have := processLines_skip fmt rc gl fs ls [] (fmt.passthrough l fence).2 hend
    simpa using this
  simp only [processLines, hpt, hsm, hhd, Bool.false_eq_true, if_false, hskip]
  simp

theorem claim_C9_witness :
    processLines markdownFormat rcNone glFalse [("f".toList, ["a\n".toList])]
      false none
      ["<!-- code_snippet_start:f:1:2 -->\n".toList, "dropped\n".toList] =
      .ok ("<!-- code_snippet_start:f:1:2 -->\n".toList ::
            mdRender [] ["a\n".toList]) :=
  claim_C9 markdownFormat rcNone glFalse [("f".toList, ["a\n".toList])] none
    "<!-- code_snippet_start:f:1:2 -->\n".toList ["dropped\n".toList]
    "f".toList ['1'] ['2'] (mdRender [] ["a\n".toList])
    (by decide) (by rfl) (by rfl) (by decide)

theorem markdownFormat_startMatch : markdownFormat.startMatch = mdStartMatch := rfl

theorem markdownFormat_endMatch : markdownFormat.endMatch = mdEndMatch := rfl

theorem markdownFormat_passthrough : markdownFormat.passthrough = mdPassthrough := rfl

theorem markdownFormat_render : markdownFormat.render = mdRender := rfl

/-- A spec ending in `/+` ends in `+`. -/
theorem endsPlus_of_endsSlashPlus {e : Line}
    (h : "/+".toList.isSuffixOf e = true) : "+".toList.isSuffixOf e = true := by
  rw [List.isSuffixOf_iff_suffix] at h ⊢
  exact List.IsSuffix.trans ⟨['/'], rfl⟩ h

/-- For an end spec not ending in `+`, the new implementation's inclusive
detection is inert and `resolveAndExtract` reduces to the legacy
resolve-then-exclusive-slice sequence. -/
theorem legacyHandle_eq (rc : Recompile) (gl : GlobMatch) (fs : FS)
    (p s e : Line) (h : "+".toList.isSuffixOf e = false) :
    legacyHandleDirective rc gl fs p s e =
      handleDirective markdownFormat rc gl fs p s e := by
  have h2 : "/+".toList.isSuffixOf e = false := by
    cases hv : "/+".toList.isSuffixOf e
    · rfl
    · exact absurd (endsPlus_of_endsSlashPlus hv) (by rw [h]; decide)
  simp only [legacyHandleDirective, handleDirective, resolveAndExtract, h, h2,
    Bool.or_self, Bool.false_eq_true, if_false, markdownFormat_render]
  cases alistLookup fs (resolvePath p) with
  | none => rfl
  | some src =>
      dsimp only []
      cases parseLineSpec rc gl s src 0 with
      | error err => rfl
      | ok startLine =>
          dsimp only []
          cases parseLineSpec rc gl e src startLine with
          | error err => rfl
          | ok endLine => rfl

/-- Decidable per-line condition: if the stripped line matches the Markdown
start directive, its end spec does not end in `+`. -/
def noPlusDirective (l : Line) : Bool :=
  match mdStartMatch (pstrip l) with
  | some (_, _, e) => !("+".toList.isSuffixOf e)
  | none => true

/-- Stepwise agreement of the legacy and new Markdown scanners, given that no
start-directive line of the document carries the `+` end-spec suffix.  The
legacy fence state `(in_fenced_block, fence_marker)` corresponds to the new
`Option Char` state by `in_fenced_block = fence.isSome` with equal markers
while inside a fence. -/
theorem legacy_new_agree (rc : Recompile) (gl : GlobMatch) (fs : FS) :
    ∀ (ls : List Line) (inSnip inF : Bool) (mk fence : Option Char),
      (∀ l ∈ ls, noPlusDirective l = true) →
      inF = fence.isSome →
      (inF = true → mk = fence) →
      legacyProcessLines rc gl fs inSnip inF mk ls =
        processLines markdownFormat rc gl fs inSnip fence ls := by
  intro ls
  induction ls with
  | nil => intro inSnip inF mk fence _ _ _; cases inSnip <;> rfl
  | cons l ls ih =>
      intro inSnip inF mk fence hplus h1 h2
      have hplusl := hplus l (by simp)
      have hplusr : ∀ x ∈ ls, noPlusDirective x = true :=
        fun x hx => hplus x (by simp [hx])
      cases inSnip with
      | true =>
          simp only [legacyProcessLines, processLines, markdownFormat_endMatch]
          by_cases hE : mdEndMatch (pstrip l) = true
          · rw [if_pos hE, if_pos hE, ih false inF mk fence hplusr h1 h2]
          · rw [if_neg hE, if_neg hE]
            exact ih true inF mk fence hplusr h1 h2
      | false =>
          cases fence with
          | none =>
              have hinf : inF = false := by simpa using h1
              subst hinf
              simp only [legacyProcessLines, processLines,
                markdownFormat_passthrough, markdownFormat_startMatch]
              unfold mdPassthrough
              cases hfm : fenceMatch (pstrip l) with
              | some c =>
                  simp only [hfm]
                  rw [ih false true (some c) (some c) hplusr rfl (fun _ => rfl)]
                  simp
              | none =>
                  simp only [hfm, Option.isSome_none, Bool.false_eq_true, if_false]
                  cases hsm : mdStartMatch (pstrip l) with
                  | none =>
                      simp only [hsm]
                      rw [ih false false mk none hplusr rfl h2]
                  | some pse =>
                      obtain ⟨p, s, e⟩ := pse
                      have hpe : "+".toList.isSuffixOf e = false := by
                        unfold noPlusDirective at hplusl
                        rw [hsm] at hplusl
                        simpa using hplusl
                      simp only [hsm]
                      rw [← legacyHandle_eq rc gl fs p s e hpe]
                      cases legacyHandleDirective rc gl fs p s e with
                      | error err => rfl
                      | ok block =>
                          rw [ih true false mk none hplusr rfl h2]
          | some m =>
              have hinf : inF = true := by simpa using h1
              subst hinf
              have hmk : mk = some m := h2 rfl
              subst hmk
              simp only [legacyProcessLines, processLines,
                markdownFormat_passthrough, markdownFormat_startMatch]
              unfold mdPassthrough
              cases hfm : fenceMatch (pstrip l) with
              | some c =>
                  simp only [hfm]
                  by_cases hcl : (!(pstrip l).isEmpty &&
                      (pstrip l).all (fun x => x = m)) = true
                  · simp only [if_pos hcl]
                    rw [ih false false (some m) none hplusr rfl
                      (fun hc => absurd hc (by decide))]
                    simp
                  · simp only [if_neg hcl]
                    rw [ih false true (some m) (some m) hplusr rfl (fun _ => rfl)]
                    simp
              | none =>
                  simp only [hfm, Option.isSome_some, if_true]
                  rw [ih false true (some m) (some m) hplusr rfl (fun _ => rfl)]

/-- C10: on a Markdown document none of whose start directives use the
inclusive `+` end-spec suffix, the legacy `code_snippet_to_md`
implementation and the new `code_snippet_to_doc` implementation produce
identical results (for the same source files). -/
theorem claim_C10 (rc : Recompile) (gl : GlobMatch) (fs : FS) (doc : List Line)
    (h : ∀ l ∈ doc, noPlusDirective l = true) :
    legacy_process_markdown rc gl fs doc = process_markdown rc gl fs doc :=
  legacy_new_agree rc gl fs doc false false none none h rfl (fun _ => rfl)

theorem claim_C10_witness :
    legacy_process_markdown rcNone glFalse
      [("f".toList, ["a\n".toList, "b\n".toList])]
      ["# t\n".toList, "<!-- code_snippet_start:f:1:2 -->\n".toList,
       "old\n".toList, "<!-- code_snippet_end -->\n".toList] =
    process_markdown rcNone glFalse
      [("f".toList, ["a\n".toList, "b\n".toList])]
      ["# t\n".toList, "<!-- code_snippet_start:f:1:2 -->\n".toList,
       "old\n".toList, "<!-- code_snippet_end -->\n".toList] :=
  claim_C10 rcNone glFalse _ _ (by decide)

/-- Replaying the output of one pass reproduces it: the generic idempotence
argument, valid whenever the block rendered for each start-directive line of
the processed suffix contains no line matching the end directive after
stripping. -/
theorem processLines_replay (fmt : DocFormat) (rc : Recompile) (gl : GlobMatch)
    (fs : FS) :
    ∀ (ls : List Line),
      (∀ l ∈ ls, ∀ p s e block, fmt.startMatch (pstrip l) = some (p, s, e) →
        handleDirective fmt rc gl fs p s e = .ok block →
        ∀ b ∈ block, fmt.endMatch (pstrip b) = false) →
      ∀ (inSnip : Bool) (fence : Option Char) (out : List Line),
        processLines fmt rc gl fs inSnip fence ls = .ok out →
        processLines fmt rc gl fs inSnip fence out = .ok out := by
  intro ls
  induction ls with
  | nil =>
      intro _ inSnip fence out h
      cases inSnip <;>
        · simp only [processLines] at h
          obtain rfl : out = [] := by injection h with h'; exact h'.symm
          rfl
  | cons l ls ih =>
      intro hH inSnip fence out h
      have hHl := hH l (by simp)
      have hHr : ∀ x ∈ ls, ∀ p s e block,
          fmt.startMatch (pstrip x) = some (p, s, e) →
          handleDirective fmt rc gl fs p s e = .ok block →
          ∀ b ∈ block, fmt.endMatch (pstrip b) = false :=
        fun x hx => hH x (by simp [hx])
      cases inSnip with
      | true =>
          simp only [processLines] at h
          by_cases hE : fmt.endMatch (pstrip l) = true
          · rw [if_pos hE] at h
            cases hrec : processLines fmt rc gl fs false fence ls with
            | error err => rw [hrec] at h; cases h
            | ok out' =>
                rw [hrec] at h
                obtain rfl : out = l :: out' := by injection h with h'; exact h'.symm
                simp only [processLines]
                rw [if_pos hE, ih hHr false fence out' hrec]
          · rw [if_neg hE] at h
            exact ih hHr true fence out h
      | false =>
          simp only [processLines] at h
          by_cases hpt : (fmt.passthrough l fence).1 = true
          · rw [if_pos hpt] at h
            cases hrec : processLines fmt rc gl fs false (fmt.passthrough l fence).2 ls with
            | error err => rw [hrec] at h; cases h
            | ok out' =>
                rw [hrec] at h
                obtain rfl : out = l :: out' := by injection h with h'; exact h'.symm
                simp only [processLines]
                rw [if_pos hpt, ih hHr false _ out' hrec]
          · rw [if_neg hpt] at h
            cases hsm : fmt.startMatch (pstrip l) with
            | none =>
                rw [hsm] at h
                cases hrec : processLines fmt rc gl fs false (fmt.passthrough l fence).2 ls with
                | error err => rw [hrec] at h; cases h
                | ok out' =>
                    rw [hrec] at h
                    obtain rfl : out = l :: out' := by injection h with h'; exact h'.symm
                    simp only [processLines]
                    rw [if_neg hpt, hsm, ih hHr false _ out' hrec]
            | some pse =>
                obtain ⟨p, s, e⟩ := pse
                rw [hsm] at h
                dsimp only [] at h
                cases hhd : handleDirective fmt rc gl fs p s e with
                | error err => rw [hhd] at h; cases h
                | ok block =>
                    rw [hhd] at h
                    cases hrec : processLines fmt rc gl fs true (fmt.passthrough l fence).2 ls with
                    | error err => rw [hrec] at h; cases h
                    | ok out' =>
                        rw [hrec] at h
                        obtain rfl : out = l :: (block ++ out') := by
                          injection h with h'; exact h'.symm
                        simp only [processLines, if_neg hpt, hsm, hhd,
                          processLines_skip fmt rc gl fs block out'
                            (fmt.passthrough l fence).2 (hHl p s e block hsm hhd),
                          ih hHr true _ out' hrec]

/-- On newline-terminated lines the trailing-newline fixup is the identity. -/
theorem ensureNL_eq {ls : List Line} (h : ∀ l ∈ ls, l.getLast? = some '\n') :
    ensureNL ls = ls := by
  unfold ensureNL
  cases hL : ls.getLast? with
  | none =>
      dsimp only []
      exact (List.getLast?_eq_none_iff.mp hL).symm
  | some last =>
      dsimp only []
      rw [h last (List.mem_of_mem_getLast? hL), if_pos rfl]

/-- A stripped line not starting with `<` cannot match the Markdown end
directive. -/
theorem mdEndMatch_ne_lt {c : Char} (t : Line) (h : ¬ c = '<') :
    mdEndMatch (c :: t) = false := by
  cases hv : mdEndMatch (c :: t)
  · rfl
  · obtain ⟨t', ht'⟩ := mdEndMatch_head hv
    exact absurd ht' (cons_ne_of_head h)

/-- A line whose head is printable and differs from `<` never matches the
Markdown end directive after stripping. -/
theorem mdEndMatch_pstrip_of_head {c : Char} (t : Line)
    (hws : pyIsSpace c = false) (h : ¬ c = '<') :
    mdEndMatch (pstrip (c :: t)) = false := by
  obtain ⟨t', ht⟩ := pstrip_cons_nonws c t hws
  rw [ht]
  exact mdEndMatch_ne_lt t' h

/-- The Markdown block rendered from a snippet contains no end-directive
line, provided the extracted lines are newline-terminated and themselves
end-directive-free. -/
theorem mdRender_safe {snippet : List Line} (lang : Line)
    (h : ∀ x ∈ snippet, x.getLast? = some '\n' ∧ mdEndMatch (pstrip x) = false) :
    ∀ b ∈ mdRender lang snippet, mdEndMatch (pstrip b) = false := by
  intro b hb
  have hwf : ∀ l ∈ snippet, l.getLast? = some '\n' := fun l hl => (h l hl).1
  unfold mdRender at hb
  rw [ensureNL_eq hwf] at hb
  simp only [List.mem_cons, List.mem_append, List.not_mem_nil, or_false] at hb
  rcases hb with rfl | rfl | hb | rfl | rfl
  · decide
  · have hcons : "```".toList ++ lang ++ ['\n'] =
        '`' :: (['`', '`'] ++ lang ++ ['\n']) := rfl
    rw [hcons]
    exact mdEndMatch_pstrip_of_head _ (by decide) (by decide)
  · exact (h b hb).2
  · decide
  · decide

/-- A stripped line not starting with a dot cannot match the RST end
directive. -/
theorem rstEndMatch_ne_dot {c : Char} (t : Line) (h : ¬ c = '.') :
    rstEndMatch (c :: t) = false := by
  cases hv : rstEndMatch (c :: t)
  · rfl
  · exfalso
    unfold rstEndMatch at hv
    cases hd : dropLit ".." (c :: t) with
    | none => rw [hd] at hv; cases hv
    | some r =>
        unfold dropLit at hd
        by_cases hp : "..".toList.isPrefixOf (c :: t) = true
        · obtain ⟨t', ht'⟩ := isPrefixOf_head hp
          exact cons_ne_of_head h ht'
        · rw [if_neg hp] at hd; cases hd

/-- Stripping is unaffected by a purely-whitespace prefix such as the RST
three-space indent. -/
theorem pstrip_ws_append (l : Line) : pstrip ("   ".toList ++ l) = pstrip l := by
  unfold pstrip
  rw [List.dropWhile_append, if_pos (by decide)]

/-- Right stripping distributes over an append whose left part ends in a
non-whitespace character. -/
theorem rstripWs_append {x : Line} (y : Line) {c : Char}
    (hx : x.getLast? = some c) (hc : pyIsSpace c = false) :
    rstripWs (x ++ y) = x ++ rstripWs y := by
  unfold rstripWs
  rw [List.reverse_append, List.dropWhile_append]
  have hxr : List.dropWhile pyIsSpace x.reverse = x.reverse := by
    cases hrx : x.reverse with
    | nil => rfl
    | cons d t =>
        have hd : d = c := by
          have hh := List.head?_reverse x
          rw [hrx] at hh
          rw [hx] at hh
          injection hh
        rw [List.dropWhile_cons, hd, hc]
        simp
  by_cases he : (y.reverse.dropWhile pyIsSpace).isEmpty = true
  · rw [if_pos he, hxr]
    have hy : y.reverse.dropWhile pyIsSpace = [] := by
      cases hyv : y.reverse.dropWhile pyIsSpace
      · rfl
      · rw [hyv] at he; cases he
    rw [hy]
    simp
  · rw [if_neg he, List.reverse_append, List.reverse_reverse]

/-- The emitted `code-block` directive line never matches the RST end
directive, whatever the language tag. -/
theorem rstEnd_header (lang : Line) :
    rstEndMatch (pstrip (".. code-block:: ".toList ++ lang ++ ['\n'])) = false := by
  have hsplit : ".. code-block:: ".toList ++ lang ++ ['\n'] =
      ".. code-block::".toList ++ (' ' :: (lang ++ ['\n'])) := by
    simp
  rw [hsplit]
  have hfront : pstrip (".. code-block::".toList ++ (' ' :: (lang ++ ['\n']))) =
      ".. code-block::".toList ++ rstripWs (' ' :: (lang ++ ['\n'])) := by
    unfold pstrip
    rw [List.dropWhile_append, if_neg (by decide),
      show List.dropWhile pyIsSpace ".. code-block::".toList =
        ".. code-block::".toList from rfl,
      rstripWs_append (' ' :: (lang ++ ['\n']))
        (show (".. code-block::".toList).getLast? = some ':' from rfl) (by decide)]
  rw [hfront]
  rfl

/-- The RST block rendered from a snippet contains no end-directive line,
provided the extracted lines are newline-terminated and themselves
end-directive-free. -/
theorem rstRender_safe {snippet : List Line} (lang : Line)
    (h : ∀ x ∈ snippet, x.getLast? = some '\n' ∧ rstEndMatch (pstrip x) = false) :
    ∀ b ∈ rstRender lang snippet, rstEndMatch (pstrip b) = false := by
  intro b hb
  have hb' : b ∈ rstRender lang snippet := hb
  unfold rstRender at hb'
  cases hgl : snippet.getLast? with
  | none =>
      rw [hgl] at hb'
      dsimp only [] at hb'
      simp only [List.mem_append, List.mem_cons, List.not_mem_nil, or_false] at hb'
      rcases hb' with (h1 | h1 | h1) | h1
      · rw [h1]; decide
      · rw [h1]; exact rstEnd_header lang
      · rw [h1]; decide
      · rw [h1]; decide
  | some last =>
      rw [hgl] at hb'
      dsimp only [] at hb'
      have hlast : last.getLast? = some '\n' :=
        (h last (List.mem_of_mem_getLast? hgl)).1
      rw [hlast, if_pos rfl] at hb'
      simp only [List.mem_append, List.mem_cons, List.not_mem_nil, or_false,
        List.mem_map] at hb'
      rcases hb' with ((h1 | h1 | h1) | ⟨l0, hl0, h2⟩) | h1
      · rw [h1]; decide
      · rw [h1]; exact rstEnd_header lang
      · rw [h1]; decide
      · rw [← h2]
        by_cases hemp : (pstrip l0).isEmpty = true
        · rw [if_pos hemp]; decide
        · rw [if_neg hemp, pstrip_ws_append]
          exact (h l0 hl0).2
      · rw [h1]; decide

/-- A successful `handleDirective` decomposes into a file read, an
extraction, and a render of the extracted snippet. -/
theorem handleDirective_ok_shape {fmt : DocFormat} {rc : Recompile}
    {gl : GlobMatch} {fs : FS} {p s e : Line} {block : List Line}
    (h : handleDirective fmt rc gl fs p s e = .ok block) :
    ∃ src snippet, alistLookup fs (resolvePath p) = some src ∧
      resolveAndExtract rc gl src s e = .ok snippet ∧
      block = fmt.render (detectLanguage (resolvePath p)) snippet := by
  simp only [handleDirective] at h
  cases hls : alistLookup fs (resolvePath p) with
  | none => rw [hls] at h; cases h
  | some src =>
      rw [hls] at h
      dsimp only [] at h
      cases hre : resolveAndExtract rc gl src s e with
      | error err => rw [hre] at h; cases h
      | ok snippet =>
          rw [hre] at h
          dsimp only [] at h
          exact ⟨src, snippet, rfl, hre, by injection h with h2; exact h2.symm⟩

/-- C1 (amended): one pass of the rewriter is reproduced by a second pass,
for both the Markdown and the RST drivers, provided the document's lines are
newline-terminated (which makes the line-level model coincide with the
byte-level `readlines` round trip) and every source line extracted for one
of the document's start-directive lines is newline-terminated and does not
match that format's end directive after stripping.  Without the
end-directive proviso a second pass differs — see the counterexample. -/
theorem claim_C1 :
    (∀ (rc : Recompile) (gl : GlobMatch) (fs : FS) (doc out : List Line),
      (∀ l ∈ doc, ∀ p s e, mdStartMatch (pstrip l) = some (p, s, e) →
        ∀ src, alistLookup fs (resolvePath p) = some src →
        ∀ snippet, resolveAndExtract rc gl src s e = .ok snippet →
        ∀ x ∈ snippet, x.getLast? = some '\n' ∧ mdEndMatch (pstrip x) = false) →
      (∀ l ∈ doc, l.getLast? = some '\n') →
      process_markdown rc gl fs doc = .ok out →
      process_markdown rc gl fs out = .ok out) ∧
    (∀ (rc : Recompile) (gl : GlobMatch) (fs : FS) (doc out : List Line),
      (∀ l ∈ doc, ∀ p s e, rstStartMatch (pstrip l) = some (p, s, e) →
        ∀ src, alistLookup fs (resolvePath p) = some src →
        ∀ snippet, resolveAndExtract rc gl src s e = .ok snippet →
        ∀ x ∈ snippet, x.getLast? = some '\n' ∧ rstEndMatch (pstrip x) = false) →
      (∀ l ∈ doc, l.getLast? = some '\n') →
      process_rst rc gl fs doc = .ok out →
      process_rst rc gl fs out = .ok out) := by
  constructor
  · intro rc gl fs doc out hext _ h
    refine processLines_replay markdownFormat rc gl fs doc ?_ false none out h
    intro l hl p s e block hsm hhd
    obtain ⟨src, snippet, hls, hre, rfl⟩ := handleDirective_ok_shape hhd
    exact mdRender_safe _ (hext l hl p s e hsm src hls snippet hre)
  · intro rc gl fs doc out hext _ h
    refine processLines_replay rstFormat rc gl fs doc ?_ false none out h
    intro l hl p s e block hsm hhd
    obtain ⟨src, snippet, hls, hre, rfl⟩ := handleDirective_ok_shape hhd
    exact rstRender_safe _ (hext l hl p s e hsm src hls snippet hre)

/-- Filesystem for the C1 witness: the directives below extract only the
first line, so the end-directive line elsewhere in the file is harmless. -/
def exW1fs : FS :=
  [("f".toList, ["a\n".toList, "<!-- code_snippet_end -->\n".toList])]

def exW1doc : List Line :=
  ["<!-- code_snippet_start:f:1:2 -->\n".toList, "old\n".toList,
   "<!-- code_snippet_end -->\n".toList]

/-- First-pass output for `exW1doc`: stale content replaced by the rendered
block. -/
def exW1out : List Line :=
  ["<!-- code_snippet_start:f:1:2 -->\n".toList, "\n".toList,
   "```\n".toList, "a\n".toList, "```\n".toList, "\n".toList,
   "<!-- code_snippet_end -->\n".toList]

def exW1rstDoc : List Line :=
  [".. code_snippet_start:f:1:2\n".toList, "old\n".toList,
   ".. code_snippet_end\n".toList]

def exW1rstOut : List Line :=
  [".. code_snippet_start:f:1:2\n".toList, "\n".toList,
   ".. code-block:: \n".toList, "\n".toList, "   a\n".toList, "\n".toList,
   ".. code_snippet_end\n".toList]

theorem claim_C1_witness :
    process_markdown rcNone glFalse exW1fs exW1doc = .ok exW1out ∧
    process_markdown rcNone glFalse exW1fs exW1out = .ok exW1out ∧
    process_rst rcNone glFalse exW1fs exW1rstDoc = .ok exW1rstOut ∧
    process_rst rcNone glFalse exW1fs exW1rstOut = .ok exW1rstOut := by
  refine ⟨by decide, ?_, by decide, ?_⟩
  · refine claim_C1.1 rcNone glFalse exW1fs exW1doc exW1out ?_ (by decide) (by decide)
    intro l hl p s e hsm
    simp only [exW1doc, List.mem_cons, List.not_mem_nil, or_false] at hl
    rcases hl with h1 | h1 | h1
    · rw [h1] at hsm
      rw [show mdStartMatch (pstrip "<!-- code_snippet_start:f:1:2 -->\n".toList) =
        some ("f".toList, "1".toList, "2".toList) from by decide] at hsm
      have h2 : ("f".toList, "1".toList, "2".toList) =
          ((p : Line), (s : Line), (e : Line)) := by injection hsm
      simp only [Prod.mk.injEq] at h2
      obtain ⟨rfl, rfl, rfl⟩ := h2
      intro src hsrc
      rw [show alistLookup exW1fs (resolvePath "f".toList) =
        some ["a\n".toList, "<!-- code_snippet_end -->\n".toList] from by decide] at hsrc
      obtain rfl :
          ["a\n".toList, "<!-- code_snippet_end -->\n".toList] = src := by injection hsrc
      intro snippet hsn
      rw [show resolveAndExtract rcNone glFalse
        ["a\n".toList, "<!-- code_snippet_end -->\n".toList]
        "1".toList "2".toList = .ok ["a\n".toList] from by decide] at hsn
      obtain rfl : ["a\n".toList] = snippet := by injection hsn
      decide
    · rw [h1] at hsm
      rw [show mdStartMatch (pstrip "old\n".toList) = none from by decide] at hsm
      cases hsm
    · rw [h1] at hsm
      rw [show mdStartMatch (pstrip "<!-- code_snippet_end -->\n".toList) =
        none from by decide] at hsm
      cases hsm
  · refine claim_C1.2 rcNone glFalse exW1fs exW1rstDoc exW1rstOut ?_ (by decide) (by decide)
    intro l hl p s e hsm
    simp only [exW1rstDoc, List.mem_cons, List.not_mem_nil, or_false] at hl
    rcases hl with h1 | h1 | h1
    · rw [h1] at hsm
      rw [show rstStartMatch (pstrip ".. code_snippet_start:f:1:2\n".toList) =
        some ("f".toList, "1".toList, "2".toList) from by decide] at hsm
      have h2 : ("f".toList, "1".toList, "2".toList) =
          ((p : Line), (s : Line), (e : Line)) := by injection hsm
      simp only [Prod.mk.injEq] at h2
      obtain ⟨rfl, rfl, rfl⟩ := h2
      intro src hsrc
      rw [show alistLookup exW1fs (resolvePath "f".toList) =
        some ["a\n".toList, "<!-- code_snippet_end -->\n".toList] from by decide] at hsrc
      obtain rfl :
          ["a\n".toList, "<!-- code_snippet_end -->\n".toList] = src := by injection hsrc
      intro snippet hsn
      rw [show resolveAndExtract rcNone glFalse
        ["a\n".toList, "<!-- code_snippet_end -->\n".toList]
        "1".toList "2".toList = .ok ["a\n".toList] from by decide] at hsn
      obtain rfl : ["a\n".toList] = snippet := by injection hsn
      decide
    · rw [h1] at hsm
      rw [show rstStartMatch (pstrip "old\n".toList) = none from by decide] at hsm
      cases hsm
    · rw [h1] at hsm
      rw [show rstStartMatch (pstrip ".. code_snippet_end\n".toList) =
        none from by decide] at hsm
      cases hsm

/-- Snippet source whose extracted line is itself an end-directive line. -/
def exC1fs : FS := [("f".toList, ["<!-- code_snippet_end -->\n".toList])]

def exC1doc : List Line :=
  ["<!-- code_snippet_start:f:1:2 -->\n".toList, "x\n".toList,
   "<!-- code_snippet_end -->\n".toList]

/-- First-pass output for `exC1doc`: the rendered block embeds the
end-directive line of the source file. -/
def exC1out1 : List Line :=
  ["<!-- code_snippet_start:f:1:2 -->\n".toList, "\n".toList,
   "```\n".toList, "<!-- code_snippet_end -->\n".toList, "```\n".toList,
   "\n".toList, "<!-- code_snippet_end -->\n".toList]

/-- C1 counterexample: as stated, idempotence fails — when the extracted
snippet contains a line matching the end directive, the second pass leaves
the snippet state at that line and then re-emits the remains of the stale
block, so processing the first pass's output does not reproduce it. -/
theorem claim_C1_counterexample :
    process_markdown rcNone glFalse exC1fs exC1doc = .ok exC1out1 ∧
    ¬ process_markdown rcNone glFalse exC1fs exC1out1 = .ok exC1out1 := by
  constructor
  · decide
  · decide

/-- A concrete matcher hitting exactly the line `hit\n`, for the C2 witness. -/
def glHit : GlobMatch := fun line _ => line == "hit\n".toList

theorem claim_C2_witness :
    (1 : Int) < 3 ∧
    parseLineSpec rcNone glHit "/hit/".toList
      ["hit\n".toList, "x\n".toList, "hit\n".toList] 1 = .ok 3 := by
  refine ⟨?_, by rfl⟩
  exact (((claim_C2 rcNone glHit "/hit/".toList
    ["hit\n".toList, "x\n".toList, "hit\n".toList] 1 3).1)
    (by decide) (by decide) (by decide)).1

end SnippetProc
